import Mathlib

/-!
Verification of the sqlx-crud schema/SQL-generation core and CRUD contracts.

The repository's `src/lib.rs` declares `pub mod schema;` and `pub mod traits;`
but those module files (and the derive-macro crate that generates the SQL
text) are not present under `src/`; only the crate-level documentation is.
The core — FieldDescriptor metadata, Schema construction, the four SQL
statement generators, and the Crud operation contracts — is therefore
modelled from the specification's words (each such definition says so in
its doc comment), and the claims are settled against that model.
-/

namespace SqlxCrud

/-- Modelled from the spec: `FieldDescriptor` (§3), one struct field's
database-relevant identity — column name plus identifier marker.  The
concrete Rust type lives in the missing `sqlx-crud-macros` / `schema`
modules. -/
structure FieldDescriptor where
  name : String
  is_identifier : Bool
deriving DecidableEq, Repr

/-- Modelled from the spec: the dialect selector (§4.1, §6) — a closed
enumeration of the two recognized placeholder styles: sequentially
numbered (`$1, $2, …`) and repeated-anonymous (`?`). -/
inductive Dialect where
  | numbered
  | anonymous
deriving DecidableEq, Repr

/-- Modelled from the spec: the construction-time error taxonomy (§7):
`SchemaError::NoFields`. -/
inductive SchemaError where
  | NoFields
deriving DecidableEq, Repr

/-- The decimal digit character for `n < 10`. -/
def digitChar (n : Nat) : Char := Char.ofNat (48 + n)

/-- Decimal representation of a natural number as a character list. -/
def toDecimal (n : Nat) : List Char :=
  if n < 10 then [digitChar n]
  else toDecimal (n / 10) ++ [digitChar (n % 10)]
decreasing_by exact Nat.div_lt_self (by omega) (by omega)

/-- Decimal representation of a natural number as a string. -/
def natLit (n : Nat) : String := ⟨toDecimal n⟩

/-- Modelled from the spec: the placeholder text for the i-th bound
parameter under a dialect (§4.1): `$i` for numbered dialects, `?` for
anonymous ones. -/
def placeholder : Dialect → Nat → String
  | .numbered, i => "$" ++ natLit i
  | .anonymous, _ => "?"

/-- Join a list of strings with a separator. -/
def joinSep (sep : String) : List String → String
  | [] => ""
  | [s] => s
  | s :: t :: rest => s ++ sep ++ joinSep sep (t :: rest)

/-- Modelled from the spec: the column name of the identifier field (§3):
the first FieldDescriptor tagged `is_identifier`, or, when none is tagged,
the first FieldDescriptor in declaration order (also documented in
`src/lib.rs` lines 22–24). -/
def identifierOf : List FieldDescriptor → String
  | [] => ""
  | f :: rest =>
    if f.is_identifier then f.name
    else if rest.any (fun g => g.is_identifier) then identifierOf rest
    else f.name

/-- Modelled from the spec: the non-identifier fields in declaration order
(§4.1 `update_sql`): all fields except the one designated identifier. -/
def nonIdFields : List FieldDescriptor → List FieldDescriptor
  | [] => []
  | f :: rest =>
    if f.is_identifier then rest
    else if rest.any (fun g => g.is_identifier) then f :: nonIdFields rest
    else rest

/-- Modelled from the spec: `select_sql` (§4.1):
`SELECT <table>.<col1>, <table>.<col2>, ... FROM <table>`, columns in
declaration order, qualified by table name. -/
def selectSqlOf (table : String) (cols : List String) : String :=
  "SELECT " ++ joinSep ", " (cols.map (fun c => table ++ "." ++ c)) ++
    " FROM " ++ table

/-- Modelled from the spec: `insert_sql` (§4.1):
`INSERT INTO <table> (<col1>, ...) VALUES (<p1>, ...)`, one placeholder per
column, in column order, identifier included. -/
def insertSqlOf (d : Dialect) (table : String) (cols : List String) : String :=
  "INSERT INTO " ++ table ++ " (" ++ joinSep ", " cols ++ ") VALUES (" ++
    joinSep ", " ((List.range cols.length).map (fun i => placeholder d (i + 1))) ++ ")"

/-- The `<col>=<p>` items of the SET clause, placeholders numbered from `i`. -/
def setClauseItems (d : Dialect) : Nat → List String → List String
  | _, [] => []
  | i, c :: rest => (c ++ "=" ++ placeholder d i) :: setClauseItems d (i + 1) rest

/-- Modelled from the spec: `update_sql` (§4.1):
`UPDATE <table> SET <col>=<p>, ... WHERE <identifier_column>=<p_last>`,
SET listing every non-identifier column in declaration order, the final
placeholder binding the identifier. -/
def updateSqlOf (d : Dialect) (table idCol : String) (nonIdCols : List String) : String :=
  "UPDATE " ++ table ++ " SET " ++ joinSep ", " (setClauseItems d 1 nonIdCols) ++
    " WHERE " ++ idCol ++ "=" ++ placeholder d (nonIdCols.length + 1)

/-- Modelled from the spec: `delete_sql` (§4.1):
`DELETE FROM <table> WHERE <identifier_column>=<p>`. -/
def deleteSqlOf (d : Dialect) (table idCol : String) : String :=
  "DELETE FROM " ++ table ++ " WHERE " ++ idCol ++ "=" ++ placeholder d 1

/-- Modelled from the spec: `Schema` (§3): table name, identifier column,
ordered column list, and the four precomputed statement texts. -/
structure Schema where
  table_name : String
  identifier_column : String
  columns : List String
  select_sql : String
  insert_sql : String
  update_sql : String
  delete_sql : String
deriving DecidableEq, Repr

/-- Modelled from the spec: `build(fields, table_name, dialect)` (§4.1):
fails with `SchemaError::NoFields` on an empty field list, otherwise
derives the column list, the identifier column and the four statement
texts. -/
def build (fields : List FieldDescriptor) (table : String) (d : Dialect) :
    Except SchemaError Schema :=
  if fields.isEmpty then .error .NoFields
  else
    .ok
      { table_name := table
        identifier_column := identifierOf fields
        columns := fields.map (fun f => f.name)
        select_sql := selectSqlOf table (fields.map (fun f => f.name))
        insert_sql := insertSqlOf d table (fields.map (fun f => f.name))
        update_sql := updateSqlOf d table (identifierOf fields)
          ((nonIdFields fields).map (fun f => f.name))
        delete_sql := deleteSqlOf d table (identifierOf fields) }

/-- Modelled from the spec: the runtime error taxonomy (§7):
`Error::Execution` wrapping whatever the executor reports. -/
inductive CrudError where
  | Execution
deriving DecidableEq, Repr

/-- Modelled from the spec: the abstract executor's single-table storage
(§6): rows addressable in order; the row-to-instance mapping is assumed
correct, so a row is a record instance. -/
structure TableState (R : Type) where
  rows : List R
deriving DecidableEq

/-- Modelled from the spec: `create(instance)` (§4.2): executes the INSERT
with every column value bound; fails with `Error::Execution` on constraint
violation (e.g. duplicate identifier).  `idOf` is the record type's
identifier projection. -/
def create {R K : Type} [DecidableEq K] (idOf : R → K)
    (t : TableState R) (r : R) : Except CrudError (TableState R) :=
  if (t.rows.filter (fun x => decide (idOf x = idOf r))).isEmpty then
    .ok ⟨t.rows ++ [r]⟩
  else .error .Execution

/-- Modelled from the spec: `by_id(executor, id_value)` (§4.2): single-row
fetch by identifier; `None` on zero matches (not an error), `Some` on a
match. -/
def by_id {R K : Type} [DecidableEq K] (idOf : R → K)
    (t : TableState R) (k : K) : Except CrudError (Option R) :=
  .ok (t.rows.find? (fun x => decide (idOf x = k)))

/-- The placeholder marker character of a dialect: `$` for numbered,
`?` for anonymous. -/
def marker : Dialect → Char
  | .numbered => '$'
  | .anonymous => '?'

/-- The marker character of the other dialect. -/
def otherMarker : Dialect → Char
  | .numbered => '?'
  | .anonymous => '$'

/-- Occurrences of a character in a string. -/
def countChar (c : Char) (s : String) : Nat := s.data.count c

/-! ### Counting lemmas -/

theorem countChar_append (c : Char) (s t : String) :
    countChar c (s ++ t) = countChar c s + countChar c t := by
  simp [countChar, String.data_append, List.count_append]

theorem digitChar_ne_marker (k : Nat) (hk : k < 10) :
    digitChar k ≠ '$' ∧ digitChar k ≠ '?' := by
  interval_cases k <;> exact ⟨by decide, by decide⟩

theorem toDecimal_count_eq_zero (c : Char) (hc : c = '$' ∨ c = '?') (n : Nat) :
    (toDecimal n).count c = 0 := by
  induction n using Nat.strong_induction_on with
  | _ n ih =>
    rw [toDecimal]
    split
    · rename_i h
      have hd := digitChar_ne_marker n h
      rcases hc with rfl | rfl
      · simp [List.count_cons, hd.1]
      · simp [List.count_cons, hd.2]
    · rename_i h
      have h10 : 10 ≤ n := by omega
      have hmod := digitChar_ne_marker (n % 10) (Nat.mod_lt _ (by omega))
      rw [List.count_append]
      have := ih (n / 10) (Nat.div_lt_self (by omega) (by omega))
      rcases hc with rfl | rfl
      · simp [this, List.count_cons, hmod.1]
      · simp [this, List.count_cons, hmod.2]

theorem countChar_placeholder_marker (d : Dialect) (i : Nat) :
    countChar (marker d) (placeholder d i) = 1 := by
  cases d with
  | numbered =>
    show countChar '$' ("$" ++ natLit i) = 1
    rw [countChar_append]
    have h0 : countChar '$' (natLit i) = 0 :=
      toDecimal_count_eq_zero '$' (Or.inl rfl) i
    rw [h0]
    decide
  | anonymous => rfl

theorem countChar_placeholder_otherMarker (d : Dialect) (i : Nat) :
    countChar (otherMarker d) (placeholder d i) = 0 := by
  cases d with
  | numbered =>
    show countChar '?' ("$" ++ natLit i) = 0
    rw [countChar_append]
    have h0 : countChar '?' (natLit i) = 0 :=
      toDecimal_count_eq_zero '?' (Or.inr rfl) i
    rw [h0]
    decide
  | anonymous => rfl

theorem countChar_joinSep (c : Char) (sep : String) (hsep : countChar c sep = 0)
    (l : List String) :
    countChar c (joinSep sep l) = (l.map (countChar c)).sum := by
  induction l with
  | nil => rfl
  | cons s rest ih =>
    cases rest with
    | nil => simp [joinSep]
    | cons t rest2 =>
      rw [joinSep, countChar_append, countChar_append, hsep, ih]
      simp [Nat.add_assoc]

theorem countChar_comma_sep (c : Char) (hc : c = '$' ∨ c = '?') :
    countChar c ", " = 0 := by
  rcases hc with rfl | rfl <;> decide

theorem sum_countChar_range_placeholders (d : Dialect) (n : Nat) :
    (((List.range n).map (fun i => placeholder d (i + 1))).map
      (countChar (marker d))).sum = n := by
  induction n with
  | zero => rfl
  | succ m ih =>
    rw [List.range_succ]
    simp only [List.map_append, List.map_cons, List.map_nil, List.sum_append,
      List.sum_cons, List.sum_nil, countChar_placeholder_marker]
    omega

theorem sum_countChar_range_placeholders_other (d : Dialect) (n : Nat) :
    (((List.range n).map (fun i => placeholder d (i + 1))).map
      (countChar (otherMarker d))).sum = 0 := by
  induction n with
  | zero => rfl
  | succ m ih =>
    rw [List.range_succ]
    simp only [List.map_append, List.map_cons, List.map_nil, List.sum_append,
      List.sum_cons, List.sum_nil, countChar_placeholder_otherMarker]
    omega

theorem countChar_eq_sign (c : Char) (hc : c = '$' ∨ c = '?') :
    countChar c "=" = 0 := by
  rcases hc with rfl | rfl <;> decide

theorem marker_cases (d : Dialect) : marker d = '$' ∨ marker d = '?' := by
  cases d
  · exact Or.inl rfl
  · exact Or.inr rfl

theorem otherMarker_cases (d : Dialect) :
    otherMarker d = '$' ∨ otherMarker d = '?' := by
  cases d
  · exact Or.inr rfl
  · exact Or.inl rfl

theorem sum_countChar_setClauseItems (d : Dialect) (cols : List String) (i : Nat)
    (hclean : ∀ c ∈ cols, countChar (marker d) c = 0) :
    ((setClauseItems d i cols).map (countChar (marker d))).sum = cols.length := by
  induction cols generalizing i with
  | nil => rfl
  | cons c rest ih =>
    rw [setClauseItems]
    simp only [List.map_cons, List.sum_cons, List.length_cons]
    rw [countChar_append, countChar_append,
      hclean c (List.mem_cons_self c rest),
      countChar_eq_sign _ (marker_cases d),
      countChar_placeholder_marker,
      ih (i + 1) (fun x hx => hclean x (List.mem_cons_of_mem c hx))]
    omega

theorem sum_countChar_setClauseItems_other (d : Dialect) (cols : List String) (i : Nat)
    (hclean : ∀ c ∈ cols, countChar (otherMarker d) c = 0) :
    ((setClauseItems d i cols).map (countChar (otherMarker d))).sum = 0 := by
  induction cols generalizing i with
  | nil => rfl
  | cons c rest ih =>
    rw [setClauseItems]
    simp only [List.map_cons, List.sum_cons]
    rw [countChar_append, countChar_append,
      hclean c (List.mem_cons_self c rest),
      countChar_eq_sign _ (otherMarker_cases d),
      countChar_placeholder_otherMarker,
      ih (i + 1) (fun x hx => hclean x (List.mem_cons_of_mem c hx))]

theorem nonIdFields_length (f : FieldDescriptor) (rest : List FieldDescriptor) :
    (nonIdFields (f :: rest)).length = rest.length := by
  induction rest generalizing f with
  | nil => rw [nonIdFields]; split <;> simp [nonIdFields]
  | cons g rest2 ih =>
    rw [nonIdFields]
    split
    · rfl
    · split
      · simp only [List.length_cons]
        rw [ih g]
      · rfl

theorem identifierOf_mem (f : FieldDescriptor) (rest : List FieldDescriptor) :
    identifierOf (f :: rest) ∈ (f :: rest).map (fun g => g.name) := by
  induction rest generalizing f with
  | nil =>
    rw [identifierOf]
    split
    · exact List.mem_cons_self _ _
    · split
      · rename_i h; simp at h
      · exact List.mem_cons_self _ _
  | cons g rest2 ih =>
    rw [identifierOf]
    split
    · exact List.mem_cons_self _ _
    · split
      · exact List.mem_cons_of_mem _ (ih g)
      · exact List.mem_cons_self _ _

theorem nonIdFields_subset (fields : List FieldDescriptor) :
    ∀ f ∈ nonIdFields fields, f ∈ fields := by
  induction fields with
  | nil => intro f hf; rw [nonIdFields] at hf; exact absurd hf (List.not_mem_nil f)
  | cons g rest ih =>
    intro f hf
    rw [nonIdFields] at hf
    split at hf
    · exact List.mem_cons_of_mem g hf
    · split at hf
      · rcases List.mem_cons.mp hf with rfl | hmem
        · exact List.mem_cons_self _ _
        · exact List.mem_cons_of_mem g (ih f hmem)
      · exact List.mem_cons_of_mem g hf

theorem build_eq_ok (fields : List FieldDescriptor) (table : String) (d : Dialect)
    (s : Schema) (h : build fields table d = .ok s) :
    fields ≠ [] ∧
    s.table_name = table ∧
    s.identifier_column = identifierOf fields ∧
    s.columns = fields.map (fun f => f.name) ∧
    s.select_sql = selectSqlOf table (fields.map (fun f => f.name)) ∧
    s.insert_sql = insertSqlOf d table (fields.map (fun f => f.name)) ∧
    s.update_sql = updateSqlOf d table (identifierOf fields)
      ((nonIdFields fields).map (fun f => f.name)) ∧
    s.delete_sql = deleteSqlOf d table (identifierOf fields) := by
  unfold build at h
  split at h
  · exact absurd h (by simp)
  · rename_i hne
    injection h with h'
    subst h'
    refine ⟨?_, rfl, rfl, rfl, rfl, rfl, rfl, rfl⟩
    intro hnil
    rw [hnil] at hne
    simp at hne

theorem find?_of_filter_singleton {α : Type} (p : α → Bool) (l : List α) (r : α)
    (h : l.filter p = [r]) : l.find? p = some r := by
  induction l with
  | nil => simp at h
  | cons a rest ih =>
    by_cases hp : p a = true
    · rw [List.find?_cons_of_pos _ hp]
      rw [List.filter_cons_of_pos hp] at h
      injection h with h1 h2
      rw [h1]
    · rw [List.find?_cons_of_neg _ hp]
      rw [List.filter_cons_of_neg hp] at h
      exact ih h

/-- The concrete record type of the spec's scenario and the crate docs:
fields `(user_id : integer, name : text)`, identifier `user_id`. -/
structure User where
  user_id : Int
  name : String
deriving DecidableEq, Repr

theorem countChar_marker_lit (d : Dialect) (s : String)
    (h1 : countChar '$' s = 0) (h2 : countChar '?' s = 0) :
    countChar (marker d) s = 0 := by
  rcases marker_cases d with h | h <;> rw [h] <;> assumption

theorem countChar_otherMarker_lit (d : Dialect) (s : String)
    (h1 : countChar '$' s = 0) (h2 : countChar '?' s = 0) :
    countChar (otherMarker d) s = 0 := by
  rcases otherMarker_cases d with h | h <;> rw [h] <;> assumption

theorem sum_countChar_names_zero (c : Char) (fields : List FieldDescriptor)
    (hnames : ∀ f ∈ fields, countChar c f.name = 0) :
    ((fields.map (fun f => f.name)).map (countChar c)).sum = 0 := by
  apply List.sum_eq_zero
  intro x hx
  rw [List.map_map, List.mem_map] at hx
  obtain ⟨f, hf, heq⟩ := hx
  rw [← heq]
  exact hnames f hf

/-! ### Claims -/

/-- C1: for every record instance, `create(instance)` followed by
`by_id` at that instance's identifier value returns `Some(x)` with `x`
field-wise equal to the instance (here: literally equal, since a record
instance is its field tuple). -/
theorem claim1_create_by_id_roundtrip {R K : Type} [DecidableEq K] (idOf : R → K)
    (t t' : TableState R) (r : R) (h : create idOf t r = .ok t') :
    by_id idOf t' (idOf r) = .ok (some r) := by
  unfold create at h
  split at h
  · rename_i hemp
    injection h with h'
    subst h'
    unfold by_id
    congr 1
    rw [List.isEmpty_iff] at hemp
    have hnone : t.rows.find? (fun x => decide (idOf x = idOf r)) = none := by
      rw [List.find?_eq_none]
      intro x hx
      simp only [decide_eq_true_eq]
      intro heq
      have hmem : x ∈ t.rows.filter (fun x => decide (idOf x = idOf r)) := by
        rw [List.mem_filter]
        exact ⟨hx, by simp [heq]⟩
      rw [hemp] at hmem
      exact absurd hmem (List.not_mem_nil x)
    rw [List.find?_append, hnone]
    simp [List.find?]
  · exact absurd h (by simp)

/-- C1 witness: creating `{user_id: 2, name: "new_user"}` in an empty
table and reading it back by identifier 2 yields that very record. -/
theorem claim1_witness :
    by_id User.user_id ⟨[⟨2, "new_user"⟩]⟩ (2 : Int) =
      .ok (some ⟨2, "new_user"⟩) :=
  claim1_create_by_id_roundtrip User.user_id ⟨[]⟩ ⟨[⟨2, "new_user"⟩]⟩
    ⟨2, "new_user"⟩ rfl

/-- C2: `insert_sql` has the form
`INSERT INTO <table> (<columns>) VALUES (<placeholders>)` and contains
exactly N placeholders, one per column in column order, identifier
included (the table and column names containing no marker character). -/
theorem claim2_insert_sql_placeholders (fields : List FieldDescriptor)
    (table : String) (d : Dialect) (s : Schema)
    (h : build fields table d = .ok s)
    (htable : countChar (marker d) table = 0)
    (hnames : ∀ f ∈ fields, countChar (marker d) f.name = 0) :
    s.insert_sql = "INSERT INTO " ++ table ++ " (" ++ joinSep ", " s.columns ++
      ") VALUES (" ++ joinSep ", "
        ((List.range s.columns.length).map (fun i => placeholder d (i + 1))) ++
      ")" ∧
    countChar (marker d) s.insert_sql = fields.length := by
  obtain ⟨hne, -, -, hcols, -, hins, -, -⟩ := build_eq_ok _ _ _ _ h
  constructor
  · rw [hins, hcols]
    rfl
  · rw [hins]
    unfold insertSqlOf
    simp only [countChar_append]
    rw [htable,
      countChar_joinSep _ _ (countChar_comma_sep _ (marker_cases d)),
      countChar_joinSep _ _ (countChar_comma_sep _ (marker_cases d)),
      sum_countChar_range_placeholders,
      sum_countChar_names_zero _ _ hnames,
      countChar_marker_lit d "INSERT INTO " (by decide) (by decide),
      countChar_marker_lit d " (" (by decide) (by decide),
      countChar_marker_lit d ") VALUES (" (by decide) (by decide),
      countChar_marker_lit d ")" (by decide) (by decide),
      List.length_map]
    omega

/-- C2 witness: the two-column anonymous-dialect INSERT text holds exactly
two placeholders. -/
theorem claim2_witness :
    countChar (marker Dialect.anonymous)
      (insertSqlOf Dialect.anonymous "users" ["user_id", "name"]) = 2 := by
  exact (claim2_insert_sql_placeholders [⟨"user_id", false⟩, ⟨"name", false⟩]
    "users" Dialect.anonymous _ rfl (by decide) (by decide)).2

/-- C3: `update_sql` has the form
`UPDATE <table> SET <non-id cols>=<p>, ... WHERE <identifier>=<p_last>`:
the SET clause lists every non-identifier column in declaration order with
N−1 placeholders, the final placeholder (the N-th) binds the identifier in
the WHERE clause, and the whole text holds exactly N placeholders. -/
theorem claim3_update_sql_placeholders (fields : List FieldDescriptor)
    (table : String) (d : Dialect) (s : Schema)
    (h : build fields table d = .ok s)
    (htable : countChar (marker d) table = 0)
    (hnames : ∀ f ∈ fields, countChar (marker d) f.name = 0) :
    s.update_sql = "UPDATE " ++ table ++ " SET " ++
      joinSep ", "
        (setClauseItems d 1 ((nonIdFields fields).map (fun f => f.name))) ++
      " WHERE " ++ s.identifier_column ++ "=" ++ placeholder d fields.length ∧
    ((nonIdFields fields).map (fun f => f.name)).length = fields.length - 1 ∧
    countChar (marker d)
      (joinSep ", "
        (setClauseItems d 1 ((nonIdFields fields).map (fun f => f.name))))
      = fields.length - 1 ∧
    countChar (marker d) s.update_sql = fields.length := by
  obtain ⟨hne, -, hid, -, -, -, hupd, -⟩ := build_eq_ok _ _ _ _ h
  obtain ⟨fd, rest, rfl⟩ : ∃ fd rest, fields = fd :: rest := by
    cases fields with
    | nil => exact absurd rfl hne
    | cons fd rest => exact ⟨fd, rest, rfl⟩
  have hlen : ((nonIdFields (fd :: rest)).map (fun g => g.name)).length
      = rest.length := by
    rw [List.length_map, nonIdFields_length]
  have hidclean : countChar (marker d) (identifierOf (fd :: rest)) = 0 := by
    have hm := identifierOf_mem fd rest
    rw [List.mem_map] at hm
    obtain ⟨g, hg, heq⟩ := hm
    rw [← heq]
    exact hnames g hg
  have hsetclean : ∀ c ∈ (nonIdFields (fd :: rest)).map (fun g => g.name),
      countChar (marker d) c = 0 := by
    intro c hc
    rw [List.mem_map] at hc
    obtain ⟨g, hg, heq⟩ := hc
    rw [← heq]
    exact hnames g (nonIdFields_subset _ g hg)
  have hsetsum : countChar (marker d)
      (joinSep ", "
        (setClauseItems d 1 ((nonIdFields (fd :: rest)).map (fun g => g.name))))
      = rest.length := by
    rw [countChar_joinSep _ _ (countChar_comma_sep _ (marker_cases d)),
      sum_countChar_setClauseItems _ _ _ hsetclean, hlen]
  refine ⟨?_, ?_, ?_, ?_⟩
  · rw [hupd, hid]
    unfold updateSqlOf
    rw [hlen, List.length_cons]
  · rw [hlen, List.length_cons]
    omega
  · rw [hsetsum, List.length_cons]
    omega
  · rw [hupd]
    unfold updateSqlOf
    simp only [countChar_append]
    rw [htable, hlen, hsetsum, hidclean,
      countChar_placeholder_marker,
      countChar_eq_sign _ (marker_cases d),
      countChar_marker_lit d "UPDATE " (by decide) (by decide),
      countChar_marker_lit d " SET " (by decide) (by decide),
      countChar_marker_lit d " WHERE " (by decide) (by decide),
      List.length_cons]
    omega

/-- C3 witness: the two-column numbered-dialect UPDATE text holds exactly
two placeholders. -/
theorem claim3_witness :
    countChar (marker Dialect.numbered)
      (updateSqlOf Dialect.numbered "users" "user_id" ["name"]) = 2 := by
  exact (claim3_update_sql_placeholders [⟨"user_id", false⟩, ⟨"name", false⟩]
    "users" Dialect.numbered _ rfl (by decide) (by decide)).2.2.2

/-- C4: building a Schema from an empty FieldDescriptor list fails with
`SchemaError::NoFields`, for every table name and dialect. -/
theorem claim4_build_empty_noFields (table : String) (d : Dialect) :
    build [] table d = .error .NoFields := rfl

/-- C5: `by_id` returns `Ok(None)` when zero rows match — never an error,
and (being a pure function of the table state) identically so on repeated
calls — and returns `Ok(Some(r))` when exactly one row `r` matches. -/
theorem claim5_by_id_absence_and_match {R K : Type} [DecidableEq K] (idOf : R → K)
    (t : TableState R) (k : K) :
    ((∀ x ∈ t.rows, idOf x ≠ k) → by_id idOf t k = .ok none) ∧
    (∀ r : R, t.rows.filter (fun x => decide (idOf x = k)) = [r] →
      by_id idOf t k = .ok (some r)) := by
  constructor
  · intro habs
    unfold by_id
    congr 1
    rw [List.find?_eq_none]
    intro x hx
    simp only [decide_eq_true_eq]
    exact habs x hx
  · intro r hone
    unfold by_id
    congr 1
    exact find?_of_filter_singleton _ _ _ hone

/-- C5 witness: against the table holding only `{user_id: 1, name: "test"}`,
`by_id 2` is `Ok(None)` and `by_id 1` is `Ok(Some {user_id: 1, name: "test"})`. -/
theorem claim5_witness :
    by_id User.user_id ⟨[⟨1, "test"⟩]⟩ (2 : Int) = .ok none ∧
    by_id User.user_id ⟨[⟨1, "test"⟩]⟩ (1 : Int) = .ok (some ⟨1, "test"⟩) :=
  ⟨(claim5_by_id_absence_and_match User.user_id ⟨[⟨1, "test"⟩]⟩ 2).1 (by decide),
   (claim5_by_id_absence_and_match User.user_id ⟨[⟨1, "test"⟩]⟩ 1).2
     ⟨1, "test"⟩ (by decide)⟩

/-- C6: when no FieldDescriptor is tagged as identifier, the first field
in declaration order is designated the identifier: `identifier_column`
equals the first column name. -/
theorem claim6_default_identifier_first_field (f : FieldDescriptor)
    (rest : List FieldDescriptor) (table : String) (d : Dialect) (s : Schema)
    (hnone : ∀ g ∈ f :: rest, g.is_identifier = false)
    (h : build (f :: rest) table d = .ok s) :
    s.identifier_column = f.name ∧ s.columns.head? = some f.name := by
  obtain ⟨-, -, hid, hcols, -⟩ := build_eq_ok _ _ _ _ h
  have hf : f.is_identifier = false := hnone f (List.mem_cons_self f rest)
  have hr : rest.any (fun g => g.is_identifier) = false := by
    rw [List.any_eq_false]
    intro g hg
    rw [hnone g (List.mem_cons_of_mem f hg)]
    exact Bool.false_ne_true
  constructor
  · rw [hid, identifierOf, hf, hr]
    simp
  · rw [hcols]
    simp

/-- C6 witness: with both fields untagged, the identifier column is the
first field's name. -/
theorem claim6_witness :
    (Schema.mk "users" "user_id" ["user_id", "name"]
      (selectSqlOf "users" ["user_id", "name"])
      (insertSqlOf Dialect.anonymous "users" ["user_id", "name"])
      (updateSqlOf Dialect.anonymous "users" "user_id" ["name"])
      (deleteSqlOf Dialect.anonymous "users" "user_id")).identifier_column
      = "user_id" ∧
    (Schema.mk "users" "user_id" ["user_id", "name"]
      (selectSqlOf "users" ["user_id", "name"])
      (insertSqlOf Dialect.anonymous "users" ["user_id", "name"])
      (updateSqlOf Dialect.anonymous "users" "user_id" ["name"])
      (deleteSqlOf Dialect.anonymous "users" "user_id")).columns.head?
      = some "user_id" :=
  claim6_default_identifier_first_field ⟨"user_id", false⟩ [⟨"name", false⟩]
    "users" Dialect.anonymous _ (by decide) rfl

/-- C7: `select_sql` is exactly
`SELECT <table>.<col1>, <table>.<col2>, ... FROM <table>` — every column
in declaration order, qualified by the table name — and contains no
placeholder of either style (given marker-free table and column names),
so it is safe as a prefix for caller-appended clauses. -/
theorem claim7_select_sql_shape (fields : List FieldDescriptor)
    (table : String) (d : Dialect) (s : Schema)
    (h : build fields table d = .ok s)
    (htable : countChar '$' table = 0 ∧ countChar '?' table = 0)
    (hnames : ∀ f ∈ fields,
      countChar '$' f.name = 0 ∧ countChar '?' f.name = 0) :
    s.select_sql = "SELECT " ++
      joinSep ", " (s.columns.map (fun c => table ++ "." ++ c)) ++
      " FROM " ++ table ∧
    countChar '$' s.select_sql = 0 ∧ countChar '?' s.select_sql = 0 := by
  obtain ⟨hne, -, -, hcols, hsel, -⟩ := build_eq_ok _ _ _ _ h
  have key : ∀ c : Char, c = '$' ∨ c = '?' → countChar c table = 0 →
      (∀ f ∈ fields, countChar c f.name = 0) →
      countChar c (selectSqlOf table (fields.map (fun f => f.name))) = 0 := by
    intro c hc htab hnm
    unfold selectSqlOf
    simp only [countChar_append]
    rw [countChar_joinSep _ _ (countChar_comma_sep _ hc), htab]
    have hdot : countChar c "." = 0 := by
      rcases hc with rfl | rfl <;> decide
    have hsum : (((fields.map (fun f => f.name)).map
        (fun x => table ++ "." ++ x)).map (countChar c)).sum = 0 := by
      apply List.sum_eq_zero
      intro x hx
      rw [List.map_map, List.mem_map] at hx
      obtain ⟨nm, hnm2, heq⟩ := hx
      rw [List.mem_map] at hnm2
      obtain ⟨f, hf, heq2⟩ := hnm2
      rw [← heq]
      show countChar c (table ++ "." ++ nm) = 0
      rw [countChar_append, countChar_append, htab, hdot, ← heq2, hnm f hf]
    rw [hsum]
    have hlit1 : countChar c "SELECT " = 0 := by
      rcases hc with rfl | rfl <;> decide
    have hlit2 : countChar c " FROM " = 0 := by
      rcases hc with rfl | rfl <;> decide
    rw [hlit1, hlit2]
  refine ⟨by rw [hsel, hcols]; rfl, ?_, ?_⟩
  · rw [hsel]
    exact key '$' (Or.inl rfl) htable.1 (fun f hf => (hnames f hf).1)
  · rw [hsel]
    exact key '?' (Or.inr rfl) htable.2 (fun f hf => (hnames f hf).2)

/-- C7 witness: the concrete two-column SELECT text holds no placeholder
marker of either style. -/
theorem claim7_witness :
    countChar '$' (selectSqlOf "users" ["user_id", "name"]) = 0 ∧
    countChar '?' (selectSqlOf "users" ["user_id", "name"]) = 0 := by
  have h7 := claim7_select_sql_shape [⟨"user_id", false⟩, ⟨"name", false⟩]
    "users" Dialect.anonymous _ rfl (by decide) (by decide)
  exact ⟨h7.2.1, h7.2.2⟩

/-- C8: Schema invariants — `columns` has length N (hence is non-empty),
`identifier_column` is a member of `columns` and (under column-name
uniqueness) occurs in it exactly once, and each of the four statement
texts is the value of a pure function of the metadata alone (table name,
column names, dialect), so no runtime value from any record instance is
ever embedded in the text. -/
theorem claim8_schema_invariants (fields : List FieldDescriptor)
    (table : String) (d : Dialect) (s : Schema)
    (h : build fields table d = .ok s) :
    s.columns.length = fields.length ∧
    s.columns ≠ [] ∧
    s.identifier_column ∈ s.columns ∧
    ((fields.map (fun f => f.name)).Nodup →
      s.columns.count s.identifier_column = 1) ∧
    s.select_sql = selectSqlOf s.table_name s.columns ∧
    s.insert_sql = insertSqlOf d s.table_name s.columns ∧
    s.update_sql = updateSqlOf d s.table_name s.identifier_column
      ((nonIdFields fields).map (fun f => f.name)) ∧
    s.delete_sql = deleteSqlOf d s.table_name s.identifier_column := by
  obtain ⟨hne, htab, hid, hcols, hsel, hins, hupd, hdel⟩ := build_eq_ok _ _ _ _ h
  obtain ⟨fd, rest, rfl⟩ : ∃ fd rest, fields = fd :: rest := by
    cases fields with
    | nil => exact absurd rfl hne
    | cons fd rest => exact ⟨fd, rest, rfl⟩
  have hmem : s.identifier_column ∈ s.columns := by
    rw [hid, hcols]
    exact identifierOf_mem fd rest
  refine ⟨?_, ?_, hmem, ?_, ?_, ?_, ?_, ?_⟩
  · rw [hcols, List.length_map]
  · rw [hcols]
    simp
  · intro hnodup
    rw [hcols] at hmem ⊢
    exact List.count_eq_one_of_mem hnodup hmem
  · rw [hsel, hcols, htab]
  · rw [hins, hcols, htab]
  · rw [hupd, hid, htab]
  · rw [hdel, hid, htab]

/-- C8 witness: for the concrete two-column schema the identifier column
is a member of the column list and occurs in it exactly once. -/
theorem claim8_witness :
    ("user_id" ∈ (["user_id", "name"] : List String)) ∧
    (["user_id", "name"] : List String).count "user_id" = 1 := by
  have h8 := claim8_schema_invariants [⟨"user_id", false⟩, ⟨"name", false⟩]
    "users" Dialect.anonymous _ rfl
  exact ⟨h8.2.2.1, h8.2.2.2.1 (by decide)⟩

/-- C9: dialect consistency — whichever placeholder form the dialect
selects, none of the four statement texts contains the other form's
marker character (given marker-free table and column names), so no
statement mixes the two forms; and `delete_sql` is exactly
`DELETE FROM <table> WHERE <identifier_column>=<p>`. -/
theorem claim9_placeholder_consistency (fields : List FieldDescriptor)
    (table : String) (d : Dialect) (s : Schema)
    (h : build fields table d = .ok s)
    (htable : countChar (otherMarker d) table = 0)
    (hnames : ∀ f ∈ fields, countChar (otherMarker d) f.name = 0) :
    countChar (otherMarker d) s.select_sql = 0 ∧
    countChar (otherMarker d) s.insert_sql = 0 ∧
    countChar (otherMarker d) s.update_sql = 0 ∧
    countChar (otherMarker d) s.delete_sql = 0 ∧
    s.delete_sql = "DELETE FROM " ++ table ++ " WHERE " ++
      s.identifier_column ++ "=" ++ placeholder d 1 := by
  obtain ⟨hne, -, hid, -, hsel, hins, hupd, hdel⟩ := build_eq_ok _ _ _ _ h
  obtain ⟨fd, rest, rfl⟩ : ∃ fd rest, fields = fd :: rest := by
    cases fields with
    | nil => exact absurd rfl hne
    | cons fd rest => exact ⟨fd, rest, rfl⟩
  have hdot : countChar (otherMarker d) "." = 0 :=
    countChar_otherMarker_lit d "." (by decide) (by decide)
  have hidclean : countChar (otherMarker d) (identifierOf (fd :: rest)) = 0 := by
    have hm := identifierOf_mem fd rest
    rw [List.mem_map] at hm
    obtain ⟨g, hg, heq⟩ := hm
    rw [← heq]
    exact hnames g hg
  refine ⟨?_, ?_, ?_, ?_, ?_⟩
  · rw [hsel]
    unfold selectSqlOf
    simp only [countChar_append]
    rw [countChar_joinSep _ _ (countChar_comma_sep _ (otherMarker_cases d)),
      htable]
    have hsum : ((((fd :: rest).map (fun f => f.name)).map
        (fun x => table ++ "." ++ x)).map (countChar (otherMarker d))).sum = 0 := by
      apply List.sum_eq_zero
      intro x hx
      rw [List.map_map, List.mem_map] at hx
      obtain ⟨nm, hnm2, heq⟩ := hx
      rw [List.mem_map] at hnm2
      obtain ⟨f, hf, heq2⟩ := hnm2
      rw [← heq]
      show countChar (otherMarker d) (table ++ "." ++ nm) = 0
      rw [countChar_append, countChar_append, htable, hdot, ← heq2,
        hnames f hf]
    rw [hsum,
      countChar_otherMarker_lit d "SELECT " (by decide) (by decide),
      countChar_otherMarker_lit d " FROM " (by decide) (by decide)]
  · rw [hins]
    unfold insertSqlOf
    simp only [countChar_append]
    rw [htable,
      countChar_joinSep _ _ (countChar_comma_sep _ (otherMarker_cases d)),
      countChar_joinSep _ _ (countChar_comma_sep _ (otherMarker_cases d)),
      sum_countChar_range_placeholders_other,
      sum_countChar_names_zero _ _ hnames,
      countChar_otherMarker_lit d "INSERT INTO " (by decide) (by decide),
      countChar_otherMarker_lit d " (" (by decide) (by decide),
      countChar_otherMarker_lit d ") VALUES (" (by decide) (by decide),
      countChar_otherMarker_lit d ")" (by decide) (by decide)]
  · rw [hupd]
    unfold updateSqlOf
    simp only [countChar_append]
    have hsetclean : ∀ c ∈ (nonIdFields (fd :: rest)).map (fun g => g.name),
        countChar (otherMarker d) c = 0 := by
      intro c hc
      rw [List.mem_map] at hc
      obtain ⟨g, hg, heq⟩ := hc
      rw [← heq]
      exact hnames g (nonIdFields_subset _ g hg)
    rw [htable, hidclean,
      countChar_joinSep _ _ (countChar_comma_sep _ (otherMarker_cases d)),
      sum_countChar_setClauseItems_other _ _ _ hsetclean,
      countChar_placeholder_otherMarker,
      countChar_eq_sign _ (otherMarker_cases d),
      countChar_otherMarker_lit d "UPDATE " (by decide) (by decide),
      countChar_otherMarker_lit d " SET " (by decide) (by decide),
      countChar_otherMarker_lit d " WHERE " (by decide) (by decide)]
  · rw [hdel]
    unfold deleteSqlOf
    simp only [countChar_append]
    rw [htable, hidclean,
      countChar_placeholder_otherMarker,
      countChar_eq_sign _ (otherMarker_cases d),
      countChar_otherMarker_lit d "DELETE FROM " (by decide) (by decide),
      countChar_otherMarker_lit d " WHERE " (by decide) (by decide)]
  · rw [hdel, hid]
    rfl

/-- C9 witness: the concrete numbered-dialect DELETE text holds no `?`
marker, and equals the spec's DELETE template. -/
theorem claim9_witness :
    countChar '?' (deleteSqlOf Dialect.numbered "users" "user_id") = 0 ∧
    deleteSqlOf Dialect.numbered "users" "user_id" =
      "DELETE FROM " ++ "users" ++ " WHERE " ++ "user_id" ++ "=" ++
        placeholder Dialect.numbered 1 := by
  have h9 := claim9_placeholder_consistency [⟨"user_id", false⟩, ⟨"name", false⟩]
    "users" Dialect.numbered _ rfl (by decide) (by decide)
  exact ⟨h9.2.2.2.1, h9.2.2.2.2⟩

/-- C10: Schema construction is deterministic — two builds from identical
field lists, table name and dialect yield byte-identical SQL statement
texts. -/
theorem claim10_build_deterministic (fields : List FieldDescriptor)
    (table : String) (d : Dialect) (s1 s2 : Schema)
    (h1 : build fields table d = .ok s1) (h2 : build fields table d = .ok s2) :
    s1.select_sql = s2.select_sql ∧ s1.insert_sql = s2.insert_sql ∧
    s1.update_sql = s2.update_sql ∧ s1.delete_sql = s2.delete_sql := by
  rw [h1] at h2
  injection h2 with h
  rw [h]
  exact ⟨rfl, rfl, rfl, rfl⟩

/-- C10 witness: two identical concrete builds agree on all four texts. -/
theorem claim10_witness :
    (Schema.mk "users" "user_id" ["user_id", "name"]
      (selectSqlOf "users" ["user_id", "name"])
      (insertSqlOf Dialect.numbered "users" ["user_id", "name"])
      (updateSqlOf Dialect.numbered "users" "user_id" ["name"])
      (deleteSqlOf Dialect.numbered "users" "user_id")).select_sql
    = (Schema.mk "users" "user_id" ["user_id", "name"]
      (selectSqlOf "users" ["user_id", "name"])
      (insertSqlOf Dialect.numbered "users" ["user_id", "name"])
      (updateSqlOf Dialect.numbered "users" "user_id" ["name"])
      (deleteSqlOf Dialect.numbered "users" "user_id")).select_sql :=
  (claim10_build_deterministic [⟨"user_id", false⟩, ⟨"name", false⟩]
    "users" Dialect.numbered _ _ rfl rfl).1

end SqlxCrud
